import Mathlib

/-!
Verification development for the Isolation game-playing agent
(`game_agent.py`).  The agent's search engine (`alphabeta_common`,
`minimax`, `alphabeta`, `get_move`, `try_move`), its evaluation
heuristics (`custom_score`, `find_accessible`, `improved_salt_score`,
`custom_cached_score`, `hash_key`, `rotate_coord`) and the symmetry
cache are shallowly embedded below and the specification's claims are
settled against them.

The board model (`isolation.Board`) is an external collaborator of the
repository; where a definition depends on it, the board is modelled
from the specification's interface description (noted in doc comments).
-/

/-- The score domain of the Python code: floats together with the two
sentinels `MIN_VAL = float("-inf")` and `MAX_VAL = float("inf")`.
Finite values are modelled as rationals. -/
inductive Score where
  | negInf : Score
  | val : Rat → Score
  | posInf : Score
deriving DecidableEq, Repr

/-- `MIN_VAL = float("-inf")`. -/
def MIN_VAL : Score := Score.negInf

/-- `MAX_VAL = float("inf")`. -/
def MAX_VAL : Score := Score.posInf

namespace Score

/-- Strict `<` on scores, matching IEEE comparison of floats with
infinities (no NaNs arise in the embedded code). -/
def blt : Score → Score → Bool
  | negInf, negInf => false
  | negInf, val _ => true
  | negInf, posInf => true
  | val _, negInf => false
  | val a, val b => decide (a < b)
  | val _, posInf => true
  | posInf, _ => false

/-- Non-strict `<=` on scores, matching IEEE comparison of floats with
infinities. -/
def ble : Score → Score → Bool
  | negInf, _ => true
  | val _, negInf => false
  | val a, val b => decide (a ≤ b)
  | val _, posInf => true
  | posInf, negInf => false
  | posInf, val _ => false
  | posInf, posInf => true

theorem blt_irrefl (a : Score) : blt a a = false := by
  cases a <;> simp [blt]

theorem ble_refl (a : Score) : ble a a = true := by
  cases a <;> simp [ble]

theorem not_ble_of_blt {a b : Score} (h : blt a b = true) : ble b a = false := by
  cases a <;> cases b <;> simp_all [blt, ble] <;> linarith

theorem not_blt_of_ble {a b : Score} (h : ble a b = true) : blt b a = false := by
  cases a <;> cases b <;> simp_all [blt, ble] <;> linarith

theorem ble_of_not_blt {a b : Score} (h : blt a b = false) : ble b a = true := by
  cases a <;> cases b <;> simp_all [blt, ble] <;> linarith

theorem ble_of_blt {a b : Score} (h : blt a b = true) : ble a b = true := by
  cases a <;> cases b <;> simp_all [blt, ble] <;> linarith

theorem ble_trans {a b c : Score} (h₁ : ble a b = true) (h₂ : ble b c = true) :
    ble a c = true := by
  cases a <;> cases b <;> cases c <;> simp_all [ble] <;> linarith

theorem ble_blt_trans {a b c : Score} (h₁ : ble a b = true) (h₂ : blt b c = true) :
    blt a c = true := by
  cases a <;> cases b <;> cases c <;> simp_all [ble, blt] <;> linarith

theorem blt_ble_trans {a b c : Score} (h₁ : blt a b = true) (h₂ : ble b c = true) :
    blt a c = true := by
  cases a <;> cases b <;> cases c <;> simp_all [ble, blt] <;> linarith

theorem ble_posInf (a : Score) : ble a posInf = true := by
  cases a <;> simp [ble]

theorem negInf_ble (a : Score) : ble negInf a = true := by
  cases a <;> simp [ble]

theorem eq_posInf_of_ble {a : Score} (h : ble posInf a = true) : a = posInf := by
  cases a <;> simp_all [ble]

theorem eq_negInf_of_ble {a : Score} (h : ble a negInf = true) : a = negInf := by
  cases a <;> simp_all [ble]

theorem not_blt_posInf (a : Score) : blt posInf a = false := by
  cases a <;> simp [blt]

theorem not_negInf_blt (a : Score) : blt a negInf = false := by
  cases a <;> simp [blt]

end Score

/-!
## The search engine (pure form)

`alphabeta_common(game, depth, lower_bound, upper_bound, maximize, prune)`
interacts with the board only through `game.get_legal_moves()` and
`game.forecast_move(move)`, and with the heuristic through
`self.score(step, self)`.  The embedding is therefore parameterized by
an abstract board-model: a state type `S`, a move type `M`,
`moves : S → List M` (legal-move enumeration, order significant),
`forecast : S → M → S`, and a deterministic heuristic
`score : S → Score`.  This pure form models runs during which
`time_left()` never drops below `TIMER_THRESHOLD` (no `Timeout`); the
timed form is embedded separately below.
-/

/-- The sentinel move `(-1, -1)`. -/
def noMove : Int × Int := (-1, -1)

/-- The `for move in game.get_legal_moves():` loop body of
`alphabeta_common`, over the remaining moves.  The loop state is
`(lower_bound, upper_bound, best_score, move_picked)`; `childEval`
evaluates a forecast state (either the heuristic at `depth <= 1` or the
recursive call). -/
def abLoop {S : Type} (forecast : S → (Int × Int) → S)
    (childEval : S → Score → Score → Bool → Score)
    (g : S) (maximize prune : Bool) :
    List (Int × Int) → Score → Score → Score → (Int × Int) → Score × (Int × Int)
  | [], _, _, best, picked => (best, picked)
  | m :: rest, lower, upper, best, picked =>
    if prune = true ∧ Score.ble upper lower = true then
      (best, picked)
    else
      let step := forecast g m
      let moveScore := childEval step lower upper (!maximize)
      if Score.blt lower moveScore = true ∧ maximize = true then
        abLoop forecast childEval g maximize prune rest moveScore upper moveScore m
      else if Score.blt moveScore upper = true ∧ maximize = false then
        abLoop forecast childEval g maximize prune rest lower moveScore moveScore m
      else
        abLoop forecast childEval g maximize prune rest lower upper best picked

/-- `CustomPlayer.alphabeta_common` (pure form, no timeout).  Depth is
the Python `int` depth clamped to `Nat`; `depth ≤ 1` evaluates the
heuristic on each forecast state, otherwise the search recurses with
`depth - 1`, inverted `maximize` and the same `prune` flag. -/
def alphabeta_common {S : Type} (moves : S → List (Int × Int))
    (forecast : S → (Int × Int) → S) (score : S → Score) :
    Nat → S → Score → Score → Bool → Bool → Score × (Int × Int)
  | 0, g, lower, upper, maximize, prune =>
    abLoop forecast (fun step _ _ _ => score step) g maximize prune
      (moves g) lower upper (if maximize then MIN_VAL else MAX_VAL) noMove
  | 1, g, lower, upper, maximize, prune =>
    abLoop forecast (fun step _ _ _ => score step) g maximize prune
      (moves g) lower upper (if maximize then MIN_VAL else MAX_VAL) noMove
  | (d + 2), g, lower, upper, maximize, prune =>
    abLoop forecast
      (fun step l u m =>
        (alphabeta_common moves forecast score (d + 1) step l u m prune).1)
      g maximize prune
      (moves g) lower upper (if maximize then MIN_VAL else MAX_VAL) noMove

/-- `CustomPlayer.minimax`: `alphabeta_common` with full bounds and
`prune = False`. -/
def minimax {S : Type} (moves : S → List (Int × Int))
    (forecast : S → (Int × Int) → S) (score : S → Score)
    (g : S) (depth : Nat) (maximize : Bool := true) : Score × (Int × Int) :=
  alphabeta_common moves forecast score depth g MIN_VAL MAX_VAL maximize false

/-- `CustomPlayer.alphabeta`: `alphabeta_common` with full bounds and
`prune = True`. -/
def alphabeta {S : Type} (moves : S → List (Int × Int))
    (forecast : S → (Int × Int) → S) (score : S → Score)
    (g : S) (depth : Nat)
    (lowerBound : Score := MIN_VAL) (upperBound : Score := MAX_VAL)
    (maximize : Bool := true) : Score × (Int × Int) :=
  alphabeta_common moves forecast score depth g lowerBound upperBound maximize true

/-- A concrete game tree used to instantiate the abstract board model
for witnesses and counterexamples: each node carries its heuristic
value and its labelled successor states. -/
inductive GTree where
  | node : Score → List ((Int × Int) × GTree) → GTree

/-- Heuristic value at a tree node. -/
def GTree.hval : GTree → Score
  | node v _ => v

/-- Successor list of a tree node. -/
def GTree.children : GTree → List ((Int × Int) × GTree)
  | node _ cs => cs

/-- Legal moves of a tree node (`game.get_legal_moves()`). -/
def GTree.moves (g : GTree) : List (Int × Int) :=
  g.children.map Prod.fst

/-- `game.forecast_move(move)` on a tree node: first child with the
given label, the node itself if the label is absent (absent labels are
never consulted by the search, which only forecasts enumerated moves). -/
def GTree.forecast (g : GTree) (m : Int × Int) : GTree :=
  match g.children.find? (fun c => c.1 = m) with
  | some c => c.2
  | none => g

/-- The deterministic heuristic on tree nodes. -/
def GTree.score (g : GTree) : Score := g.hval

/-!
## Equivalence of pruning and non-pruning search (claim C1)

Both modes are "fail-hard": values outside the current `(lower, upper)`
window are filtered by the caller's strict comparisons, so skipping
branches once the window closes never changes the `(score, move)` a
caller adopts.  The lemmas below make this precise.
-/

section ABEquiv

variable {S : Type} (forecast : S → (Int × Int) → S)

/-- Once the window has closed (`upper <= lower`), the pruning loop
returns its accumulated result immediately. -/
theorem abLoop_prune_stop (eval : S → Score → Score → Bool → Score) (g : S)
    (maximize : Bool) (ms : List (Int × Int)) {lower upper : Score}
    (best : Score) (picked : Int × Int)
    (h : Score.ble upper lower = true) :
    abLoop forecast eval g maximize true ms lower upper best picked = (best, picked) := by
  cases ms with
  | nil => rfl
  | cons m rest => simp [abLoop, h]

/-- After the window has closed at a maximizing node, the non-pruning
loop can only accumulate further scores at or above `upper`; if
`upper = +inf` it makes no further update at all. -/
theorem abLoopN_post_max (eval : S → Score → Score → Bool → Score) (g : S) :
    ∀ (ms : List (Int × Int)) (lower upper best : Score) (picked : Int × Int),
      Score.ble upper lower = true → Score.ble upper best = true →
      Score.ble upper (abLoop forecast eval g true false ms lower upper best picked).1 = true ∧
        (upper = Score.posInf →
          abLoop forecast eval g true false ms lower upper best picked = (best, picked)) := by
  intro ms
  induction ms with
  | nil =>
    intro lower upper best picked _ hb
    exact ⟨hb, fun _ => rfl⟩
  | cons m rest ih =>
    intro lower upper best picked h hb
    simp only [abLoop, Bool.false_eq_true, false_and, if_false, Bool.not_true, and_true,
      Bool.true_eq_false, and_false]
    by_cases hlt : Score.blt lower (eval (forecast g m) lower upper false) = true
    · rw [if_pos hlt]
      have hups : Score.ble upper (eval (forecast g m) lower upper false) = true :=
        Score.ble_of_blt (Score.ble_blt_trans h hlt)
      have := ih (eval (forecast g m) lower upper false) upper
        (eval (forecast g m) lower upper false) m hups hups
      refine ⟨this.1, fun hpi => ?_⟩
      subst hpi
      have : lower = Score.posInf := Score.eq_posInf_of_ble h
      subst this
      rw [Score.not_blt_posInf] at hlt
      exact absurd hlt (by simp)
    · rw [if_neg hlt]
      exact ih lower upper best picked h hb

/-- After the window has closed at a minimizing node, the non-pruning
loop can only accumulate further scores at or below `lower`; if
`lower = -inf` it makes no further update at all. -/
theorem abLoopN_post_min (eval : S → Score → Score → Bool → Score) (g : S) :
    ∀ (ms : List (Int × Int)) (lower upper best : Score) (picked : Int × Int),
      Score.ble upper lower = true → Score.ble best lower = true →
      Score.ble (abLoop forecast eval g false false ms lower upper best picked).1 lower = true ∧
        (lower = Score.negInf →
          abLoop forecast eval g false false ms lower upper best picked = (best, picked)) := by
  intro ms
  induction ms with
  | nil =>
    intro lower upper best picked _ hb
    exact ⟨hb, fun _ => rfl⟩
  | cons m rest ih =>
    intro lower upper best picked h hb
    simp only [abLoop, Bool.false_eq_true, false_and, if_false, Bool.not_false, and_true,
      Bool.true_eq_false, and_false, Bool.false_eq_true]
    by_cases hlt : Score.blt (eval (forecast g m) lower upper true) upper = true
    · rw [if_pos hlt]
      have hdowns : Score.ble (eval (forecast g m) lower upper true) lower = true :=
        Score.ble_of_blt (Score.blt_ble_trans hlt h)
      have := ih lower (eval (forecast g m) lower upper true)
        (eval (forecast g m) lower upper true) m hdowns hdowns
      refine ⟨this.1, fun hpi => ?_⟩
      subst hpi
      have : upper = Score.negInf := Score.eq_negInf_of_ble h
      subst this
      rw [Score.not_negInf_blt] at hlt
      exact absurd hlt (by simp)
    · rw [if_neg hlt]
      exact ih lower upper best picked h hb

/-- Pruning vs non-pruning loop at a maximizing node: as long as the
incoming window is open, both loops either agree exactly, or both
"fail high" (accumulate a score at or above `upper`, which the calling
minimizing frame filters out) — and at `upper = +inf` they agree even
then. -/
theorem abLoop_eq_max (evalP evalN : S → Score → Score → Bool → Score) (g : S)
    (hchild : ∀ step l u, Score.blt l u = true →
      evalP step l u false = evalN step l u false ∨
        (Score.ble (evalP step l u false) l = true ∧
         Score.ble (evalN step l u false) l = true)) :
    ∀ (ms : List (Int × Int)) (lower upper best : Score) (picked : Int × Int),
      Score.blt lower upper = true →
      abLoop forecast evalP g true true ms lower upper best picked =
          abLoop forecast evalN g true false ms lower upper best picked ∨
        (Score.ble upper (abLoop forecast evalP g true true ms lower upper best picked).1 = true ∧
         Score.ble upper (abLoop forecast evalN g true false ms lower upper best picked).1 = true ∧
         (upper = Score.posInf →
           abLoop forecast evalP g true true ms lower upper best picked =
             abLoop forecast evalN g true false ms lower upper best picked)) := by
  intro ms
  induction ms with
  | nil => intro lower upper best picked _; left; rfl
  | cons m rest ih =>
    intro lower upper best picked h
    have hble : Score.ble upper lower = false := Score.not_ble_of_blt h
    simp only [abLoop, Bool.not_true, Bool.false_eq_true, false_and, if_false, and_true,
      Bool.true_eq_false, and_false, eq_self_iff_true, true_and, hble]
    rcases hchild (forecast g m) lower upper h with heq | ⟨hfP, hfN⟩
    · rw [heq]
      by_cases hlt : Score.blt lower (evalN (forecast g m) lower upper false) = true
      · rw [if_pos hlt, if_pos hlt]
        by_cases hvu :
            Score.blt (evalN (forecast g m) lower upper false) upper = true
        · exact ih (evalN (forecast g m) lower upper false) upper
            (evalN (forecast g m) lower upper false) m hvu
        · have hup : Score.ble upper (evalN (forecast g m) lower upper false) = true :=
            Score.ble_of_not_blt (by simpa using hvu)
          have hstop := abLoop_prune_stop forecast evalP g true rest
            (evalN (forecast g m) lower upper false) m hup
          have hpost := abLoopN_post_max forecast evalN g rest
            (evalN (forecast g m) lower upper false) upper
            (evalN (forecast g m) lower upper false) m hup hup
          right
          refine ⟨by rw [hstop]; exact hup, hpost.1, fun hpi => ?_⟩
          rw [hstop, hpost.2 hpi]
      · rw [if_neg hlt, if_neg hlt]
        exact ih lower upper best picked h
    · have hltP : Score.blt lower (evalP (forecast g m) lower upper false) = false :=
        Score.not_blt_of_ble hfP
      have hltN : Score.blt lower (evalN (forecast g m) lower upper false) = false :=
        Score.not_blt_of_ble hfN
      rw [if_neg (by simp [hltP]), if_neg (by simp [hltN])]
      exact ih lower upper best picked h

/-- Pruning vs non-pruning loop at a minimizing node: as long as the
incoming window is open, both loops either agree exactly, or both
"fail low" (accumulate a score at or below `lower`, which the calling
maximizing frame filters out) — and at `lower = -inf` they agree even
then. -/
theorem abLoop_eq_min (evalP evalN : S → Score → Score → Bool → Score) (g : S)
    (hchild : ∀ step l u, Score.blt l u = true →
      evalP step l u true = evalN step l u true ∨
        (Score.ble u (evalP step l u true) = true ∧
         Score.ble u (evalN step l u true) = true)) :
    ∀ (ms : List (Int × Int)) (lower upper best : Score) (picked : Int × Int),
      Score.blt lower upper = true →
      abLoop forecast evalP g false true ms lower upper best picked =
          abLoop forecast evalN g false false ms lower upper best picked ∨
        (Score.ble (abLoop forecast evalP g false true ms lower upper best picked).1 lower = true ∧
         Score.ble (abLoop forecast evalN g false false ms lower upper best picked).1 lower = true ∧
         (lower = Score.negInf →
           abLoop forecast evalP g false true ms lower upper best picked =
             abLoop forecast evalN g false false ms lower upper best picked)) := by
  intro ms
  induction ms with
  | nil => intro lower upper best picked _; left; rfl
  | cons m rest ih =>
    intro lower upper best picked h
    have hble : Score.ble upper lower = false := Score.not_ble_of_blt h
    simp only [abLoop, Bool.not_false, Bool.false_eq_true, false_and, if_false, and_true,
      Bool.true_eq_false, and_false, eq_self_iff_true, true_and, hble]
    rcases hchild (forecast g m) lower upper h with heq | ⟨hfP, hfN⟩
    · rw [heq]
      by_cases hlt : Score.blt (evalN (forecast g m) lower upper true) upper = true
      · rw [if_pos hlt, if_pos hlt]
        by_cases hvu :
            Score.blt lower (evalN (forecast g m) lower upper true) = true
        · exact ih lower (evalN (forecast g m) lower upper true)
            (evalN (forecast g m) lower upper true) m hvu
        · have hdown : Score.ble (evalN (forecast g m) lower upper true) lower = true :=
            Score.ble_of_not_blt (by simpa using hvu)
          have hstop := abLoop_prune_stop forecast evalP g false rest
            (evalN (forecast g m) lower upper true) m hdown
          have hpost := abLoopN_post_min forecast evalN g rest lower
            (evalN (forecast g m) lower upper true)
            (evalN (forecast g m) lower upper true) m hdown hdown
          right
          refine ⟨by rw [hstop]; exact hdown, hpost.1, fun hpi => ?_⟩
          rw [hstop, hpost.2 hpi]
      · rw [if_neg hlt, if_neg hlt]
        exact ih lower upper best picked h
    · have hltP : Score.blt (evalP (forecast g m) lower upper true) upper = false :=
        Score.not_blt_of_ble hfP
      have hltN : Score.blt (evalN (forecast g m) lower upper true) upper = false :=
        Score.not_blt_of_ble hfN
      rw [if_neg (by simp [hltP]), if_neg (by simp [hltN])]
      exact ih lower upper best picked h

/-- Pruning vs non-pruning `alphabeta_common` at every node: with an
open window the two either agree exactly or both fail outside the
window on the filtered side (agreeing even then when the window is
unbounded on that side). -/
theorem alphabeta_common_prune_eq {S : Type} (moves : S → List (Int × Int))
    (forecast : S → (Int × Int) → S) (score : S → Score) :
    ∀ depth : Nat,
      (∀ (g : S) (lower upper : Score), Score.blt lower upper = true →
        alphabeta_common moves forecast score depth g lower upper true true =
            alphabeta_common moves forecast score depth g lower upper true false ∨
          (Score.ble upper
              (alphabeta_common moves forecast score depth g lower upper true true).1 = true ∧
           Score.ble upper
              (alphabeta_common moves forecast score depth g lower upper true false).1 = true ∧
           (upper = Score.posInf →
             alphabeta_common moves forecast score depth g lower upper true true =
               alphabeta_common moves forecast score depth g lower upper true false))) ∧
      (∀ (g : S) (lower upper : Score), Score.blt lower upper = true →
        alphabeta_common moves forecast score depth g lower upper false true =
            alphabeta_common moves forecast score depth g lower upper false false ∨
          (Score.ble
              (alphabeta_common moves forecast score depth g lower upper false true).1 lower = true ∧
           Score.ble
              (alphabeta_common moves forecast score depth g lower upper false false).1 lower = true ∧
           (lower = Score.negInf →
             alphabeta_common moves forecast score depth g lower upper false true =
               alphabeta_common moves forecast score depth g lower upper false false))) := by
  intro depth
  induction depth using Nat.strong_induction_on with
  | _ depth ih =>
    match depth with
    | 0 =>
      constructor
      · intro g lower upper h
        simp only [alphabeta_common]
        exact abLoop_eq_max forecast _ _ g (fun step l u _ => Or.inl rfl)
          (moves g) lower upper _ noMove h
      · intro g lower upper h
        simp only [alphabeta_common]
        exact abLoop_eq_min forecast _ _ g (fun step l u _ => Or.inl rfl)
          (moves g) lower upper _ noMove h
    | 1 =>
      constructor
      · intro g lower upper h
        simp only [alphabeta_common]
        exact abLoop_eq_max forecast _ _ g (fun step l u _ => Or.inl rfl)
          (moves g) lower upper _ noMove h
      · intro g lower upper h
        simp only [alphabeta_common]
        exact abLoop_eq_min forecast _ _ g (fun step l u _ => Or.inl rfl)
          (moves g) lower upper _ noMove h
    | (d + 2) =>
      have ihd := ih (d + 1) (by omega)
      constructor
      · intro g lower upper h
        simp only [alphabeta_common]
        refine abLoop_eq_max forecast _ _ g (fun step l u hl => ?_)
          (moves g) lower upper _ noMove h
        rcases ihd.2 step l u hl with heq | ⟨h₁, h₂, _⟩
        · exact Or.inl (congrArg Prod.fst heq)
        · exact Or.inr ⟨h₁, h₂⟩
      · intro g lower upper h
        simp only [alphabeta_common]
        refine abLoop_eq_min forecast _ _ g (fun step l u hl => ?_)
          (moves g) lower upper _ noMove h
        rcases ihd.1 step l u hl with heq | ⟨h₁, h₂, _⟩
        · exact Or.inl (congrArg Prod.fst heq)
        · exact Or.inr ⟨h₁, h₂⟩

end ABEquiv

/-- C1: for every game state, every fixed depth and any deterministic
heuristic, `alphabeta` (i.e. `alphabeta_common` with `prune=True`)
returns the identical `(score, move)` pair as `minimax`
(`alphabeta_common` with `prune=False`): enabling pruning never changes
the result. -/
theorem alphabeta_eq_minimax {S : Type} (moves : S → List (Int × Int))
    (forecast : S → (Int × Int) → S) (score : S → Score)
    (g : S) (depth : Nat) :
    alphabeta moves forecast score g depth = minimax moves forecast score g depth := by
  have h := (alphabeta_common_prune_eq moves forecast score depth).1 g MIN_VAL MAX_VAL rfl
  unfold alphabeta minimax
  rcases h with h | ⟨_, _, h⟩
  · exact h
  · exact h rfl

/-!
## The search engine (timed form)

`alphabeta_common` begins every invocation with
`if self.time_left() < self.TIMER_THRESHOLD: raise Timeout()`.
The wall clock is modelled as an oracle `timeLeft : Nat → Rat` giving
the value returned by the k-th call to `time_left()`; the call counter
is threaded through the computation and `raise Timeout()` is the
`Except.error ()` value, which the `match`-based binds propagate
through every enclosing frame (no handler exists below `try_move`).
-/

/-- The move loop of `alphabeta_common`, timed form: identical to
`abLoop` but threading the clock counter and propagating `Timeout`
from child evaluations. -/
def abLoopT {S : Type} (forecast : S → (Int × Int) → S)
    (childEval : S → Score → Score → Bool → Nat → Except Unit (Score × Nat))
    (g : S) (maximize prune : Bool) :
    List (Int × Int) → Score → Score → Score → (Int × Int) → Nat →
      Except Unit ((Score × (Int × Int)) × Nat)
  | [], _, _, best, picked, k => .ok ((best, picked), k)
  | m :: rest, lower, upper, best, picked, k =>
    if prune = true ∧ Score.ble upper lower = true then
      .ok ((best, picked), k)
    else
      match childEval (forecast g m) lower upper (!maximize) k with
      | .error e => .error e
      | .ok (moveScore, k') =>
        if Score.blt lower moveScore = true ∧ maximize = true then
          abLoopT forecast childEval g maximize prune rest moveScore upper moveScore m k'
        else if Score.blt moveScore upper = true ∧ maximize = false then
          abLoopT forecast childEval g maximize prune rest lower moveScore moveScore m k'
        else
          abLoopT forecast childEval g maximize prune rest lower upper best picked k'

/-- `CustomPlayer.alphabeta_common`, timed form.  Every entry first
polls the clock and raises `Timeout` (`Except.error ()`) if the
remaining time is below `TIMER_THRESHOLD`; the depth is the Python
`int` (all depths `≤ 1` evaluate the heuristic on forecast states). -/
def alphabeta_commonT {S : Type} (timeLeft : Nat → Rat) (threshold : Rat)
    (moves : S → List (Int × Int)) (forecast : S → (Int × Int) → S) (score : S → Score)
    (depth : Int) (g : S) (lower upper : Score) (maximize prune : Bool) (k : Nat) :
    Except Unit ((Score × (Int × Int)) × Nat) :=
  if timeLeft k < threshold then .error ()
  else if h : depth ≤ 1 then
    abLoopT forecast (fun step _ _ _ k' => .ok (score step, k')) g maximize prune
      (moves g) lower upper (if maximize then MIN_VAL else MAX_VAL) noMove (k + 1)
  else
    abLoopT forecast
      (fun step l u m k' =>
        match alphabeta_commonT timeLeft threshold moves forecast score
            (depth - 1) step l u m prune k' with
        | .error e => .error e
        | .ok (r, k'') => .ok (r.1, k''))
      g maximize prune
      (moves g) lower upper (if maximize then MIN_VAL else MAX_VAL) noMove (k + 1)
termination_by depth.toNat
decreasing_by omega

/-- The two valid `method` identifiers of `CustomPlayer`. -/
inductive Method where
  | minimaxM : Method
  | alphabetaM : Method
deriving DecidableEq, Repr

/-- `CustomPlayer.try_move`: one depth-limited search attempt.  A
`Timeout` raised anywhere inside the search is caught here and turned
into `False` (modelled `none`); otherwise the selected move and the
advanced clock counter are returned. -/
def try_move {S : Type} (timeLeft : Nat → Rat) (threshold : Rat)
    (moves : S → List (Int × Int)) (forecast : S → (Int × Int) → S) (score : S → Score)
    (method : Method) (g : S) (depth : Int) (k : Nat) : Option ((Int × Int) × Nat) :=
  match method with
  | .minimaxM =>
    match alphabeta_commonT timeLeft threshold moves forecast score
        depth g MIN_VAL MAX_VAL true false k with
    | .error _ => none
    | .ok ((_, move), k') => some (move, k')
  | .alphabetaM =>
    match alphabeta_commonT timeLeft threshold moves forecast score
        depth g MIN_VAL MAX_VAL true true k with
    | .error _ => none
    | .ok ((_, move), k') => some (move, k')

/-- The `while` loop of `CustomPlayer.get_move`: run `try_move` at the
current depth; on `False` (timeout) stop and keep the previous best
move, otherwise overwrite the best move and deepen.  `fuel` bounds the
number of iterations the model will unfold (`none` = the loop has not
terminated within `fuel` iterations). -/
def get_move_loop {S : Type} (timeLeft : Nat → Rat) (threshold : Rat)
    (moves : S → List (Int × Int)) (forecast : S → (Int × Int) → S) (score : S → Score)
    (method : Method) (g : S) (maxDepth : Int) :
    Nat → Int → (Int × Int) → Nat → Option (Int × Int)
  | 0, _, _, _ => none
  | fuel + 1, depth, best, k =>
    if maxDepth ≤ 0 ∨ depth ≤ maxDepth then
      match try_move timeLeft threshold moves forecast score method g depth k with
      | none => some best
      | some (move, k') =>
        get_move_loop timeLeft threshold moves forecast score method g maxDepth
          fuel (depth + 1) move k'
    else some best

/-- `CustomPlayer.get_move` (the harness-facing `select_move`):
iterative deepening from depth 1 (or a single fixed-depth attempt),
starting with best move `(-1, -1)` and clock counter 0. -/
def get_move {S : Type} (timeLeft : Nat → Rat) (threshold : Rat)
    (moves : S → List (Int × Int)) (forecast : S → (Int × Int) → S) (score : S → Score)
    (method : Method) (iterative : Bool) (maxDepth : Int) (g : S) (fuel : Nat) :
    Option (Int × Int) :=
  get_move_loop timeLeft threshold moves forecast score method g maxDepth
    fuel (if iterative then 1 else maxDepth) noMove 0

/-!
## Iterative deepening and timeout handling (claims C2, C3, C8)
-/

/-- The outcome of `c` consecutive successful `try_move` attempts
starting at a given depth and clock counter: the deepest completed
move together with the clock counter afterwards, or `none` if any of
the attempts raised `Timeout`. -/
def try_chain {S : Type} (timeLeft : Nat → Rat) (threshold : Rat)
    (moves : S → List (Int × Int)) (forecast : S → (Int × Int) → S) (score : S → Score)
    (method : Method) (g : S) :
    Nat → Int → (Int × Int) → Nat → Option ((Int × Int) × Nat)
  | 0, _, best, k => some (best, k)
  | c + 1, depth, best, k =>
    match try_move timeLeft threshold moves forecast score method g depth k with
    | none => none
    | some (move, k') =>
      try_chain timeLeft threshold moves forecast score method g c (depth + 1) move k'

/-- The `get_move` loop keeps exactly the deepest completed move: if
`c` depths starting at `depth` complete (ending with move `m`) and the
next depth's attempt times out, the loop returns `m`. -/
theorem get_move_loop_last_completed {S : Type} (timeLeft : Nat → Rat) (threshold : Rat)
    (moves : S → List (Int × Int)) (forecast : S → (Int × Int) → S) (score : S → Score)
    (method : Method) (g : S) (maxDepth : Int) :
    ∀ (c fuel : Nat) (depth : Int) (best : Int × Int) (k : Nat) (m : Int × Int) (kc : Nat),
      c < fuel →
      (maxDepth ≤ 0 ∨ depth + c ≤ maxDepth) →
      try_chain timeLeft threshold moves forecast score method g c depth best k =
        some (m, kc) →
      try_move timeLeft threshold moves forecast score method g (depth + c) kc = none →
      get_move_loop timeLeft threshold moves forecast score method g maxDepth
        fuel depth best k = some m := by
  intro c
  induction c with
  | zero =>
    intro fuel depth best k m kc hfuel hb hchain htm
    obtain ⟨f, rfl⟩ : ∃ f, fuel = f + 1 := ⟨fuel - 1, by omega⟩
    simp only [try_chain, Option.some.injEq, Prod.mk.injEq] at hchain
    obtain ⟨rfl, rfl⟩ := hchain
    have hb' : maxDepth ≤ 0 ∨ depth ≤ maxDepth := by
      rcases hb with hb | hb
      · exact Or.inl hb
      · right; simpa using hb
    simp only [get_move_loop, if_pos hb']
    have : depth + (0 : Nat) = depth := by simp
    rw [this] at htm
    rw [htm]
  | succ c ih =>
    intro fuel depth best k m kc hfuel hb hchain htm
    obtain ⟨f, rfl⟩ : ∃ f, fuel = f + 1 := ⟨fuel - 1, by omega⟩
    simp only [try_chain] at hchain
    cases htry : try_move timeLeft threshold moves forecast score method g depth k with
    | none => rw [htry] at hchain; exact absurd hchain (by simp)
    | some mv =>
      obtain ⟨move, k'⟩ := mv
      rw [htry] at hchain
      simp only at hchain
      have hb' : maxDepth ≤ 0 ∨ depth ≤ maxDepth := by
        rcases hb with hb | hb
        · exact Or.inl hb
        · right
          have : (depth : Int) + ((c : Int) + 1) ≤ maxDepth := by push_cast at hb ⊢; omega
          omega
      simp only [get_move_loop, if_pos hb', htry]
      refine ih f (depth + 1) move k' m kc (by omega) ?_ hchain ?_
      · rcases hb with hb | hb
        · exact Or.inl hb
        · right; push_cast at hb ⊢; omega
      · have : depth + 1 + (c : Int) = depth + ((c : Int) + 1) := by ring
        rw [this]
        have : depth + ((c : Int) + 1) = depth + ((c + 1 : Nat) : Int) := by push_cast; ring
        rw [this]
        exact htm

/-- C2: with iterative deepening enabled, if depths `1..c` complete
(the depth-`c` search returning move `m`) and a `Timeout` occurs during
the depth-`c+1` search, `get_move` returns exactly `m`, the move of the
last fully completed depth, and the timeout is absorbed (a move value
is returned, never the `Timeout` itself).  With `c = 0` (depth 1 is cut
off before completing) the returned move is the sentinel `(-1, -1)`. -/
theorem get_move_timeout_returns_last_completed {S : Type} (timeLeft : Nat → Rat)
    (threshold : Rat) (moves : S → List (Int × Int)) (forecast : S → (Int × Int) → S)
    (score : S → Score) (method : Method) (g : S) (maxDepth : Int)
    (c fuel : Nat) (m : Int × Int) (kc : Nat)
    (hfuel : c < fuel)
    (hb : maxDepth ≤ 0 ∨ 1 + (c : Int) ≤ maxDepth)
    (hchain : try_chain timeLeft threshold moves forecast score method g c 1 noMove 0 =
      some (m, kc))
    (htm : try_move timeLeft threshold moves forecast score method g (1 + (c : Int)) kc =
      none) :
    get_move timeLeft threshold moves forecast score method true maxDepth g fuel =
      some m := by
  unfold get_move
  simp only [if_pos rfl]
  exact get_move_loop_last_completed timeLeft threshold moves forecast score method g
    maxDepth c fuel 1 noMove 0 m kc hfuel hb hchain htm

/-- A concrete two-ply game for witnesses: one legal root move to a
state of heuristic value 5. -/
def tg2 : GTree := GTree.node (Score.val 0) [((0, 0), GTree.node (Score.val 5) [])]

/-- A clock oracle whose first two polls report 100 ms and all later
polls report 0 ms. -/
def orc2 : Nat → Rat := fun k => if k ≤ 1 then 100 else 0

theorem get_move_timeout_returns_last_completed_witness :
    try_chain orc2 10 GTree.moves GTree.forecast GTree.score .alphabetaM tg2 1 1 noMove 0 =
        some ((0, 0), 1) ∧
      try_move orc2 10 GTree.moves GTree.forecast GTree.score .alphabetaM tg2
        (1 + ((1 : Nat) : Int)) 1 = none ∧
      get_move orc2 10 GTree.moves GTree.forecast GTree.score .alphabetaM true 3 tg2 5 =
        some (0, 0) := by
  have hchain : try_chain orc2 10 GTree.moves GTree.forecast GTree.score .alphabetaM tg2
      1 1 noMove 0 = some ((0, 0), 1) := by
    simp +decide [try_chain, try_move, alphabeta_commonT, abLoopT, GTree.moves,
      GTree.forecast, GTree.score, GTree.children, GTree.hval, noMove, orc2, tg2,
      MIN_VAL, MAX_VAL, Score.blt, Score.ble]
  have htm : try_move orc2 10 GTree.moves GTree.forecast GTree.score .alphabetaM tg2
      (1 + ((1 : Nat) : Int)) 1 = none := by
    simp +decide [try_move, alphabeta_commonT, abLoopT, GTree.moves, GTree.forecast,
      GTree.score, GTree.children, GTree.hval, noMove, orc2, tg2,
      MIN_VAL, MAX_VAL, Score.blt, Score.ble]
  exact ⟨hchain, htm,
    get_move_timeout_returns_last_completed orc2 10 GTree.moves GTree.forecast
      GTree.score .alphabetaM tg2 3 1 5 (0, 0) 1 (by decide) (by decide) hchain htm⟩

/-- C8: once the remaining-time callback stays below `TIMER_THRESHOLD`,
every entry of `alphabeta_commonT` — before enumerating any move of any
state — raises `Timeout`, every `try_move` at any depth reports the
absorbed timeout (`False`), and the `get_move` loop immediately falls
back to the current best move. -/
theorem timeout_aborts_all_search {S : Type} (timeLeft : Nat → Rat) (threshold : Rat)
    (moves : S → List (Int × Int)) (forecast : S → (Int × Int) → S) (score : S → Score)
    (k0 : Nat) (hk : ∀ j, k0 ≤ j → timeLeft j < threshold) :
    (∀ (k : Nat) (depth : Int) (g : S) (lower upper : Score) (maximize prune : Bool),
      k0 ≤ k →
      alphabeta_commonT timeLeft threshold moves forecast score depth g lower upper
        maximize prune k = .error ()) ∧
    (∀ (k : Nat) (method : Method) (g : S) (depth : Int), k0 ≤ k →
      try_move timeLeft threshold moves forecast score method g depth k = none) ∧
    (∀ (k : Nat) (method : Method) (g : S) (maxDepth : Int) (fuel : Nat) (depth : Int)
      (best : Int × Int), k0 ≤ k →
      get_move_loop timeLeft threshold moves forecast score method g maxDepth
        (fuel + 1) depth best k = some best) := by
  have h1 : ∀ (k : Nat) (depth : Int) (g : S) (lower upper : Score)
      (maximize prune : Bool), k0 ≤ k →
      alphabeta_commonT timeLeft threshold moves forecast score depth g lower upper
        maximize prune k = .error () := by
    intro k depth g lower upper maximize prune hle
    rw [alphabeta_commonT]
    rw [if_pos (hk k hle)]
  have h2 : ∀ (k : Nat) (method : Method) (g : S) (depth : Int), k0 ≤ k →
      try_move timeLeft threshold moves forecast score method g depth k = none := by
    intro k method g depth hle
    cases method <;> simp [try_move, h1 k depth g MIN_VAL MAX_VAL true _ hle]
  refine ⟨h1, h2, ?_⟩
  intro k method g maxDepth fuel depth best hle
  simp only [get_move_loop]
  split
  · rw [h2 k method g depth hle]
  · rfl

theorem timeout_aborts_all_search_witness :
    (∀ j : Nat, 0 ≤ j → (fun _ : Nat => (0 : Rat)) j < 10) ∧
      alphabeta_commonT (fun _ : Nat => (0 : Rat)) 10 GTree.moves GTree.forecast
        GTree.score 3 tg2 MIN_VAL MAX_VAL true true 0 = .error () :=
  ⟨fun _ _ => by exact (by decide : (0 : Rat) < 10),
    (timeout_aborts_all_search (fun _ : Nat => (0 : Rat)) 10 GTree.moves GTree.forecast
        GTree.score 0 (fun _ _ => by exact (by decide : (0 : Rat) < 10))).1
      0 3 tg2 MIN_VAL MAX_VAL true true (Nat.le_refl 0)⟩

/-- The move accumulated by the search loop is one of the enumerated
legal moves, or the accumulator it started from. -/
theorem abLoopT_picked_mem {S : Type} (forecast : S → (Int × Int) → S)
    (childEval : S → Score → Score → Bool → Nat → Except Unit (Score × Nat))
    (g : S) (maximize prune : Bool) :
    ∀ (ms : List (Int × Int)) (lower upper best : Score) (picked : Int × Int)
      (k : Nat) (s : Score) (mv : Int × Int) (k' : Nat),
      abLoopT forecast childEval g maximize prune ms lower upper best picked k =
        .ok ((s, mv), k') →
      mv ∈ ms ∨ mv = picked := by
  intro ms
  induction ms with
  | nil =>
    intro lower upper best picked k s mv k' h
    simp only [abLoopT, Except.ok.injEq, Prod.mk.injEq] at h
    exact Or.inr h.1.2.symm
  | cons m rest ih =>
    intro lower upper best picked k s mv k' h
    simp only [abLoopT] at h
    split at h
    · simp only [Except.ok.injEq, Prod.mk.injEq] at h
      exact Or.inr h.1.2.symm
    · cases hc : childEval (forecast g m) lower upper (!maximize) k with
      | error e => rw [hc] at h; exact absurd h (by simp)
      | ok v =>
        obtain ⟨moveScore, k''⟩ := v
        rw [hc] at h
        simp only at h
        split at h
        · rcases ih _ _ _ _ _ _ _ _ h with hmem | rfl
          · exact Or.inl (List.mem_cons_of_mem m hmem)
          · exact Or.inl (List.mem_cons_self _ _)
        · split at h
          · rcases ih _ _ _ _ _ _ _ _ h with hmem | rfl
            · exact Or.inl (List.mem_cons_of_mem m hmem)
            · exact Or.inl (List.mem_cons_self _ _)
          · rcases ih _ _ _ _ _ _ _ _ h with hmem | rfl
            · exact Or.inl (List.mem_cons_of_mem m hmem)
            · exact Or.inr rfl

/-- A completed `alphabeta_commonT` search returns a move from the
root's legal-move list, or the sentinel. -/
theorem alphabeta_commonT_move_mem {S : Type} (timeLeft : Nat → Rat) (threshold : Rat)
    (moves : S → List (Int × Int)) (forecast : S → (Int × Int) → S) (score : S → Score)
    (depth : Int) (g : S) (lower upper : Score) (maximize prune : Bool) (k : Nat)
    (s : Score) (mv : Int × Int) (k' : Nat)
    (h : alphabeta_commonT timeLeft threshold moves forecast score depth g lower upper
      maximize prune k = .ok ((s, mv), k')) :
    mv ∈ moves g ∨ mv = noMove := by
  rw [alphabeta_commonT] at h
  split at h
  · exact absurd h (by simp)
  · split at h
    · exact abLoopT_picked_mem forecast _ g maximize prune _ _ _ _ _ _ _ _ _ h
    · exact abLoopT_picked_mem forecast _ g maximize prune _ _ _ _ _ _ _ _ _ h

/-- A completed `try_move` attempt returns a move from the root's
legal-move list, or the sentinel. -/
theorem try_move_move_mem {S : Type} (timeLeft : Nat → Rat) (threshold : Rat)
    (moves : S → List (Int × Int)) (forecast : S → (Int × Int) → S) (score : S → Score)
    (method : Method) (g : S) (depth : Int) (k : Nat) (mv : Int × Int) (k' : Nat)
    (h : try_move timeLeft threshold moves forecast score method g depth k =
      some (mv, k')) :
    mv ∈ moves g ∨ mv = noMove := by
  cases method <;> simp only [try_move] at h <;>
    (split at h
     · exact absurd h (by simp)
     · next heq =>
         simp only [Option.some.injEq, Prod.mk.injEq] at h
         obtain ⟨rfl, rfl⟩ := h
         exact alphabeta_commonT_move_mem timeLeft threshold moves forecast score _ g
           MIN_VAL MAX_VAL true _ k _ _ _ heq)

/-- Every move the `get_move` loop can return is a legal root move or
the sentinel, provided its accumulator already is. -/
theorem get_move_loop_move_mem {S : Type} (timeLeft : Nat → Rat) (threshold : Rat)
    (moves : S → List (Int × Int)) (forecast : S → (Int × Int) → S) (score : S → Score)
    (method : Method) (g : S) (maxDepth : Int) :
    ∀ (fuel : Nat) (depth : Int) (best : Int × Int) (k : Nat) (mv : Int × Int),
      (best ∈ moves g ∨ best = noMove) →
      get_move_loop timeLeft threshold moves forecast score method g maxDepth
        fuel depth best k = some mv →
      mv ∈ moves g ∨ mv = noMove := by
  intro fuel
  induction fuel with
  | zero => intro depth best k mv _ h; exact absurd h (by simp [get_move_loop])
  | succ f ih =>
    intro depth best k mv hbest h
    simp only [get_move_loop] at h
    split at h
    · cases htry : try_move timeLeft threshold moves forecast score method g depth k with
      | none =>
        rw [htry] at h
        simp only [Option.some.injEq] at h
        exact h ▸ hbest
      | some v =>
        obtain ⟨move, k'⟩ := v
        rw [htry] at h
        exact ih _ _ _ _ (try_move_move_mem timeLeft threshold moves forecast score
          method g depth k move k' htry) h
    · simp only [Option.some.injEq] at h
      exact h ▸ hbest

/-- C3 (amended): whenever `get_move` returns a move, that move is one
of the root state's legal moves or the sentinel `(-1, -1)`; the
sentinel can, however, also be returned with legal moves available and
a depth completed (see the counterexample), namely when no enumerated
move's score ever strictly exceeded the running lower bound. -/
theorem get_move_legal_or_sentinel {S : Type} (timeLeft : Nat → Rat) (threshold : Rat)
    (moves : S → List (Int × Int)) (forecast : S → (Int × Int) → S) (score : S → Score)
    (method : Method) (iterative : Bool) (maxDepth : Int) (g : S) (fuel : Nat)
    (mv : Int × Int)
    (h : get_move timeLeft threshold moves forecast score method iterative maxDepth g
      fuel = some mv) :
    mv ∈ moves g ∨ mv = noMove := by
  unfold get_move at h
  exact get_move_loop_move_mem timeLeft threshold moves forecast score method g maxDepth
    fuel _ noMove 0 mv (Or.inr rfl) h

theorem get_move_legal_or_sentinel_witness :
    get_move (fun _ : Nat => (100 : Rat)) 10 GTree.moves GTree.forecast GTree.score
        .alphabetaM true 1 tg2 3 = some (0, 0) ∧
      ((0, 0) ∈ GTree.moves tg2 ∨ ((0, 0) : Int × Int) = noMove) := by
  have h : get_move (fun _ : Nat => (100 : Rat)) 10 GTree.moves GTree.forecast GTree.score
      .alphabetaM true 1 tg2 3 = some (0, 0) := by
    simp +decide [get_move, get_move_loop, try_move, alphabeta_commonT, abLoopT,
      GTree.moves, GTree.forecast, GTree.score, GTree.children, GTree.hval, noMove, tg2,
      MIN_VAL, MAX_VAL, Score.blt, Score.ble]
  exact ⟨h, get_move_legal_or_sentinel (fun _ : Nat => (100 : Rat)) 10 GTree.moves
    GTree.forecast GTree.score .alphabetaM true 1 tg2 3 (0, 0) h⟩

/-- A root state with one legal move whose forecast state scores the
loss sentinel `MIN_VAL`. -/
def gAllLoss : GTree := GTree.node (Score.val 0) [((2, 3), GTree.node Score.negInf [])]

/-- C3 counterexample: on `gAllLoss` the legal-move list is the
non-empty `[(2, 3)]` and the depth-1 search completes without timeout,
yet `get_move` returns the sentinel `(-1, -1)` — because the move's
score `MIN_VAL` is not strictly greater than the initial lower bound,
`move_picked` is never overwritten. -/
theorem get_move_sentinel_despite_legal_moves :
    GTree.moves gAllLoss = [(2, 3)] ∧
      try_move (fun _ : Nat => (100 : Rat)) 10 GTree.moves GTree.forecast GTree.score
        .alphabetaM gAllLoss 1 0 = some ((-1, -1), 1) ∧
      get_move (fun _ : Nat => (100 : Rat)) 10 GTree.moves GTree.forecast GTree.score
        .alphabetaM true 1 gAllLoss 3 = some (-1, -1) := by
  refine ⟨rfl, ?_, ?_⟩ <;>
    simp +decide [get_move, get_move_loop, try_move, alphabeta_commonT, abLoopT,
      GTree.moves, GTree.forecast, GTree.score, GTree.children, GTree.hval, noMove,
      gAllLoss, MIN_VAL, MAX_VAL, Score.blt, Score.ble]

/-!
## Board model and evaluation heuristics (claims C4, C5, C6, C7, C9, C10)
-/

/-- Modelled from the spec: the `isolation.Board` collaborator is not
part of the repository's source here, so its state is modelled from the
specification's data model — "board dimensions, set of blocked cells,
two player positions (or unset before first move), move count,
active-player indicator".  `occupied` lists the cells whose
`__board_state__` entry is not `BLANK`; players are identified by a
`Bool` (`true` = player 1). -/
structure Board where
  width : Nat
  height : Nat
  occupied : List (Int × Int)
  p1 : Option (Int × Int)
  p2 : Option (Int × Int)
  activeIsP1 : Bool
  move_count : Nat

/-- Modelled from the spec: `player_position(state, player) ->
coordinate or "unset"` (`game.get_player_location`). -/
def get_player_location (b : Board) (p : Bool) : Option (Int × Int) :=
  if p then b.p1 else b.p2

/-- Modelled from the spec: `move_is_legal(coordinate) -> bool (bounds +
not-blocked check)` (`game.move_is_legal`). -/
def move_is_legal (b : Board) (pt : Int × Int) : Bool :=
  decide (0 ≤ pt.1) && decide (pt.1 < (b.width : Int)) &&
    decide (0 ≤ pt.2) && decide (pt.2 < (b.height : Int)) && !(b.occupied.contains pt)

/-- Modelled from the spec: the active player, as a player identifier
(`game.active_player`). -/
def active_player (b : Board) : Bool := b.activeIsP1

/-- The knight-move direction table of `find_accessible`. -/
def directions : List (Int × Int) :=
  [(-2, -1), (-2, 1), (-1, -2), (-1, 2), (1, -2), (1, 2), (2, -1), (2, 1)]

/-- The inner `for direction in directions:` body of `find_accessible`:
state is `(explored, (new_frontier, access_rating))`. -/
def floodDirs (legal : (Int × Int) → Bool) (generation : Nat) (point : Int × Int) :
    List (Int × Int) → List (Int × Int) × List (Int × Int) × Rat →
      List (Int × Int) × List (Int × Int) × Rat
  | [], st => st
  | d :: rest, (explored, newFrontier, rating) =>
    let newPoint := (point.1 + d.1, point.2 + d.2)
    if legal newPoint = false then
      floodDirs legal generation point rest (explored, newFrontier, rating)
    else if newPoint ∈ explored then
      floodDirs legal generation point rest (explored, newFrontier, rating)
    else
      floodDirs legal generation point rest
        (newPoint :: explored, newFrontier ++ [newPoint], rating + 1 / (generation : Rat))

/-- The `for point in frontier:` body of `find_accessible`. -/
def floodGen (legal : (Int × Int) → Bool) (generation : Nat) :
    List (Int × Int) → List (Int × Int) × List (Int × Int) × Rat →
      List (Int × Int) × List (Int × Int) × Rat
  | [], st => st
  | point :: rest, st =>
    floodGen legal generation rest (floodDirs legal generation point directions st)

/-- The `while len(frontier) > 0 and generation <= max_generation:`
loop of `find_accessible`. -/
def floodLoop (legal : (Int × Int) → Bool) (maxGen generation : Nat)
    (frontier explored : List (Int × Int)) (rating : Rat) : Rat × List (Int × Int) :=
  if 0 < frontier.length ∧ generation ≤ maxGen then
    let st := floodGen legal generation frontier (explored, ([], rating))
    floodLoop legal maxGen (generation + 1) st.2.1 st.1 st.2.2
  else (rating, explored)
termination_by maxGen + 1 - generation
decreasing_by omega

/-- `find_accessible(game, player, max_generation)`: flood-fill over
knight moves from the player's position; rating 0 and an empty explored
set when the position is unset, otherwise base rating 1 plus
`1/generation` per newly reached cell. -/
def find_accessible (b : Board) (p : Bool) (maxGen : Nat) : Rat × List (Int × Int) :=
  match get_player_location b p with
  | none => (0, [])
  | some position => floodLoop (move_is_legal b) maxGen 1 [position] [] 1

/-- `custom_score(game, player)`: flood-fill accessibility difference
with the loss/win sentinels on a zero rating, salted by
`random.random() * spice` (modelled by the `salt` parameter) when the
evaluated player is the active player. -/
def custom_score (b : Board) (p : Bool) (salt : Rat) : Score :=
  let pr := find_accessible b p 5
  if pr.1 = 0 then MIN_VAL
  else
    let opr := find_accessible b (!p) 5
    if opr.1 = 0 then MAX_VAL
    else Score.val (pr.1 - opr.1 + (if active_player b = p then salt else 0))

theorem floodDirs_rating_le (legal : (Int × Int) → Bool) (generation : Nat)
    (point : Int × Int) :
    ∀ (dirs : List (Int × Int)) (st : List (Int × Int) × List (Int × Int) × Rat),
      st.2.2 ≤ (floodDirs legal generation point dirs st).2.2 := by
  intro dirs
  induction dirs with
  | nil => intro st; exact le_refl _
  | cons d rest ih =>
    intro st
    obtain ⟨explored, newFrontier, rating⟩ := st
    simp only [floodDirs]
    split
    · exact ih _
    · split
      · exact ih _
      · refine le_trans ?_ (ih _)
        have : (0 : Rat) ≤ 1 / (generation : Rat) := by positivity
        simp only
        linarith

theorem floodGen_rating_le (legal : (Int × Int) → Bool) (generation : Nat) :
    ∀ (pts : List (Int × Int)) (st : List (Int × Int) × List (Int × Int) × Rat),
      st.2.2 ≤ (floodGen legal generation pts st).2.2 := by
  intro pts
  induction pts with
  | nil => intro st; exact le_refl _
  | cons point rest ih =>
    intro st
    simp only [floodGen]
    exact le_trans (floodDirs_rating_le legal generation point directions st) (ih _)

theorem floodLoop_rating_ge (legal : (Int × Int) → Bool) :
    ∀ (n maxGen generation : Nat) (frontier explored : List (Int × Int)) (rating : Rat),
      maxGen + 1 - generation ≤ n →
      rating ≤ (floodLoop legal maxGen generation frontier explored rating).1 := by
  intro n
  induction n with
  | zero =>
    intro maxGen generation frontier explored rating hn
    rw [floodLoop]
    have : ¬ (0 < frontier.length ∧ generation ≤ maxGen) := by omega
    rw [if_neg this]
  | succ n ih =>
    intro maxGen generation frontier explored rating hn
    rw [floodLoop]
    split
    · next hcond =>
      refine le_trans ?_ (ih maxGen (generation + 1) _ _ _ (by omega))
      exact floodGen_rating_le legal generation frontier (explored, ([], rating))
    · exact le_refl _

theorem custom_score_rating_facts (b : Board) (p : Bool) (maxGen : Nat) (salt : Rat) :
    ((find_accessible b p maxGen).1 = 0 ↔ get_player_location b p = none) ∧
      (get_player_location b p ≠ none → 1 ≤ (find_accessible b p maxGen).1) ∧
      (custom_score b p salt = MIN_VAL ↔ get_player_location b p = none) ∧
      (custom_score b p salt = MAX_VAL ↔
        (get_player_location b p ≠ none ∧ get_player_location b (!p) = none)) := by
  have hrate : ∀ (q : Bool) (mg : Nat), get_player_location b q ≠ none →
      1 ≤ (find_accessible b q mg).1 := by
    intro q mg hq
    cases hpos : get_player_location b q with
    | none => exact absurd hpos hq
    | some position =>
      simp only [find_accessible, hpos]
      exact floodLoop_rating_ge (move_is_legal b) (mg + 1) mg 1 [position] [] 1 (by omega)
  have hzero : ∀ (q : Bool) (mg : Nat),
      ((find_accessible b q mg).1 = 0 ↔ get_player_location b q = none) := by
    intro q mg
    constructor
    · intro h0
      by_contra hq
      have := hrate q mg hq
      rw [h0] at this
      linarith
    · intro hq; simp [find_accessible, hq]
  refine ⟨hzero p maxGen, hrate p maxGen, ?_, ?_⟩
  · simp only [custom_score]
    by_cases h0 : (find_accessible b p 5).1 = 0
    · rw [if_pos h0]
      simpa using (hzero p 5).mp h0
    · rw [if_neg h0]
      have hne : ¬ get_player_location b p = none := fun hq => h0 ((hzero p 5).mpr hq)
      by_cases h0' : (find_accessible b (!p) 5).1 = 0
      · rw [if_pos h0']
        simp [MIN_VAL, MAX_VAL, hne]
      · rw [if_neg h0']
        simp [MIN_VAL, hne]
  · simp only [custom_score]
    by_cases h0 : (find_accessible b p 5).1 = 0
    · rw [if_pos h0]
      simp [MIN_VAL, MAX_VAL, (hzero p 5).mp h0]
    · rw [if_neg h0]
      have hne : ¬ get_player_location b p = none := fun hq => h0 ((hzero p 5).mpr hq)
      by_cases h0' : (find_accessible b (!p) 5).1 = 0
      · rw [if_pos h0']
        simp [MAX_VAL, hne, (hzero (!p) 5).mp h0']
      · rw [if_neg h0']
        have hne' : ¬ get_player_location b (!p) = none :=
          fun hq => h0' ((hzero (!p) 5).mpr hq)
        simp [MAX_VAL, hne, hne']

/-- C4 (amended): `find_accessible` returns rating 0 exactly when the
player's position is unset; any set position — including an isolated
player with no legal knight moves and an empty reachable set — yields a
rating of at least 1 (the self base).  Consequently `custom_score`
returns the loss sentinel iff the evaluated player's position is unset,
and the win sentinel iff the player's position is set and the
opponent's is unset. -/
theorem find_accessible_zero_iff_unset (b : Board) (p : Bool) (maxGen : Nat) (salt : Rat) :
    ((find_accessible b p maxGen).1 = 0 ↔ get_player_location b p = none) ∧
      (get_player_location b p ≠ none → 1 ≤ (find_accessible b p maxGen).1) ∧
      (custom_score b p salt = MIN_VAL ↔ get_player_location b p = none) ∧
      (custom_score b p salt = MAX_VAL ↔
        (get_player_location b p ≠ none ∧ get_player_location b (!p) = none)) :=
  custom_score_rating_facts b p maxGen salt

/-- A 3x3 board on which player 1 at `(0,0)` has both knight targets
blocked (an isolated player with an empty reachable set), while
player 2 at `(2,2)` can still move; player 2 is to move. -/
def bIso : Board :=
  ⟨3, 3, [(1, 2), (2, 1), (0, 0), (2, 2)], some (0, 0), some (2, 2), false, 4⟩

/-- C4 counterexample: the isolated player 1 on `bIso` has no legal
knight move and an empty reachable set, yet `find_accessible` returns
rating 1 (not 0) and an empty explored set, and `custom_score` returns
the finite value `-3`, not the loss sentinel. -/
theorem find_accessible_isolated_rating_one :
    get_player_location bIso true = some (0, 0) ∧
      (∀ d ∈ directions, move_is_legal bIso (0 + d.1, 0 + d.2) = false) ∧
      find_accessible bIso true 5 = (1, []) ∧
      custom_score bIso true 0 = Score.val (-3) := by
  refine ⟨rfl, by decide, ?_, ?_⟩ <;>
    · simp +decide [find_accessible, floodLoop, floodGen, floodDirs, custom_score,
        get_player_location, move_is_legal, active_player, bIso, directions,
        MIN_VAL, MAX_VAL]
      try norm_num

theorem find_accessible_zero_iff_unset_witness :
    get_player_location bIso true ≠ none ∧ 1 ≤ (find_accessible bIso true 5).1 :=
  ⟨by simp [get_player_location, bIso],
    (find_accessible_zero_iff_unset bIso true 5 0).2.1 (by simp [get_player_location, bIso])⟩

/-- C10: with the evaluated player's position unset, `custom_score`
returns the loss sentinel; with the player's position set and the
opponent's unset it returns the win sentinel — during the opening
plies the flood-fill heuristic only produces the two sentinels. -/
theorem custom_score_opening_sentinels (b : Board) (p : Bool) (salt : Rat) :
    (get_player_location b p = none → custom_score b p salt = MIN_VAL) ∧
      (get_player_location b p ≠ none → get_player_location b (!p) = none →
        custom_score b p salt = MAX_VAL) := by
  have h := custom_score_rating_facts b p 5 salt
  exact ⟨fun hq => h.2.2.1.mpr hq, fun hp hq => h.2.2.2.mpr ⟨hp, hq⟩⟩

/-- An empty 3x3 board before any placement. -/
def bUnset : Board := ⟨3, 3, [], none, none, true, 0⟩

/-- A 3x3 board after only player 1's first placement. -/
def bHalf : Board := ⟨3, 3, [(1, 1)], some (1, 1), none, false, 1⟩

theorem custom_score_opening_sentinels_witness :
    custom_score bUnset true 0 = MIN_VAL ∧ custom_score bHalf true 0 = MAX_VAL :=
  ⟨(custom_score_opening_sentinels bUnset true 0).1 rfl,
    (custom_score_opening_sentinels bHalf true 0).2
      (by simp [get_player_location, bHalf]) rfl⟩

/-!
## The mobility ("improved salt") heuristic (claim C6)
-/

/-- Modelled from the spec: the per-player legal-move enumeration and
active player consumed by `improved_salt_score`
(`game.get_legal_moves(player)`, `game.active_player`); the
`isolation.Board` source is not part of the repository here. -/
structure MobGame where
  legalMoves : Bool → List (Int × Int)
  active : Bool

/-- Modelled from the spec: `is_terminal_loss(state, player)`
(`game.is_loser`) — "the loss sentinel iff the player has zero legal
moves". -/
def is_loser (g : MobGame) (p : Bool) : Bool := (g.legalMoves p).isEmpty

/-- Modelled from the spec: `is_terminal_win(state, player)`
(`game.is_winner`) — "the win sentinel iff the opponent has zero legal
moves". -/
def is_winner (g : MobGame) (p : Bool) : Bool := (g.legalMoves (!p)).isEmpty

/-- `improved_salt_score(game, player)`: loss/win sentinels first, then
the legal-move-count difference, salted by `random.random() * spice`
(the `salt` parameter) when the evaluated player is active. -/
def improved_salt_score (g : MobGame) (p : Bool) (salt : Rat) : Score :=
  if is_loser g p then MIN_VAL
  else if is_winner g p then MAX_VAL
  else
    Score.val ((((g.legalMoves p).length : Int) - ((g.legalMoves (!p)).length : Int) : Int) +
      (if g.active = p then salt else 0))

/-- A state in which both players have zero legal moves. -/
def gBothStuck : MobGame := ⟨fun _ => [], true⟩

/-- C6 counterexample: on a state where both players have zero legal
moves, the opponent has zero legal moves yet `improved_salt_score`
returns the loss sentinel, not the win sentinel — the `is_loser` check
takes priority, so "win sentinel iff the opponent has zero legal moves"
fails. -/
theorem improved_salt_score_both_stuck :
    (gBothStuck.legalMoves (!true)).isEmpty = true ∧
      improved_salt_score gBothStuck true 0 = MIN_VAL ∧
      improved_salt_score gBothStuck true 0 ≠ MAX_VAL := by
  refine ⟨rfl, rfl, ?_⟩
  simp [improved_salt_score, is_loser, is_winner, gBothStuck, MIN_VAL, MAX_VAL]

/-- C6 (amended): for every state and every salt in `[0, 1)`,
`improved_salt_score` returns the loss sentinel iff the player has zero
legal moves, the win sentinel iff the opponent has zero legal moves
*and the player has at least one* (the loss check takes priority when
both are stuck), and otherwise exactly the integer difference of
legal-move counts plus the salt — added only when the evaluated player
is the side to move; the salt never alters the sentinel cases. -/
theorem improved_salt_score_spec (g : MobGame) (p : Bool) (salt : Rat)
    (hsalt0 : 0 ≤ salt) (hsalt1 : salt < 1) :
    (improved_salt_score g p salt = MIN_VAL ↔ g.legalMoves p = []) ∧
      (improved_salt_score g p salt = MAX_VAL ↔
        (g.legalMoves p ≠ [] ∧ g.legalMoves (!p) = [])) ∧
      (g.legalMoves p ≠ [] → g.legalMoves (!p) ≠ [] →
        improved_salt_score g p salt =
          Score.val ((((g.legalMoves p).length : Int) -
              ((g.legalMoves (!p)).length : Int) : Int) +
            (if g.active = p then salt else 0))) := by
  unfold improved_salt_score is_loser is_winner
  by_cases hp : g.legalMoves p = []
  · simp [hp, MIN_VAL, MAX_VAL]
  · by_cases ho : g.legalMoves (!p) = []
    · simp [hp, ho, MIN_VAL, MAX_VAL]
    · simp [hp, ho, MIN_VAL, MAX_VAL]

theorem improved_salt_score_spec_witness :
    ((0 : Rat) ≤ 0 ∧ (0 : Rat) < 1) ∧
      (improved_salt_score gBothStuck true 0 = MIN_VAL ↔
        gBothStuck.legalMoves true = []) :=
  ⟨⟨by decide, by decide⟩,
    (improved_salt_score_spec gBothStuck true 0 (by decide) (by decide)).1⟩

/-!
## The symmetry cache (claims C5, C7, C9)
-/

/-- Directional constants used during rotations. -/
def NORTH : Nat := 0

def EAST : Nat := 1

def SOUTH : Nat := 2

def WEST : Nat := 3

def DIAG_1 : Nat := 4

def DIAG_2 : Nat := 5

def HORIZ : Nat := 6

def VERT : Nat := 8

/-- The only rotations `custom_cached_score` ever probes or stores —
four for every board shape, the diagonal transforms are never used. -/
def RECT_ROTATIONS : List Nat := [NORTH, SOUTH, HORIZ, VERT]

/-- `rotate_coord(game, x, y, rotation)`: the source tests `rotation`
against each constant in turn (at most one branch fires since the
constants are distinct). -/
def rotate_coord (b : Board) (x y : Int) (rotation : Nat) : Int × Int :=
  let off_h : Int := (b.width : Int) - 1
  let off_v : Int := (b.height : Int) - 1
  if rotation = NORTH then (x, y)
  else if rotation = SOUTH then (off_h - x, off_v - y)
  else if rotation = EAST then (y, off_h - x)
  else if rotation = WEST then (off_v - y, x)
  else if rotation = HORIZ then (off_h - x, y)
  else if rotation = VERT then (x, off_v - y)
  else if rotation = DIAG_1 then (y, x)
  else if rotation = DIAG_2 then (off_v - y, off_h - x)
  else (x, y)

/-- `hash_key(game, rotation)`: player coordinates under the rotation,
followed by the board scan that rotates the loop variables `x, y`
*before* indexing `__board_state__`, appending the rotated pair when
the cell at the rotated position is occupied.  `str(key)` is injective
on integer lists, so the key is modelled as the list itself.  The
source unconditionally destructures both player locations, so the key
is meaningful only for boards with both positions set (`getD` supplies
a dummy otherwise). -/
def hash_key (b : Board) (rotation : Nat) : List Int :=
  let pos1 := (get_player_location b true).getD (0, 0)
  let pos2 := (get_player_location b false).getD (0, 0)
  let r1 := rotate_coord b pos1.1 pos1.2 rotation
  let r2 := rotate_coord b pos2.1 pos2.2 rotation
  [r1.1, r1.2, r2.1, r2.2] ++
    (List.range b.width).flatMap (fun x =>
      (List.range b.height).flatMap (fun y =>
        let r := rotate_coord b (x : Int) (y : Int) rotation
        if b.occupied.contains r then [r.1, r.2] else []))

/-- `key in player.score_cache` / `player.score_cache[key]` on the
dict, modelled as an association list. -/
def cache_find (key : List Int) : List (List Int × Score) → Option Score
  | [] => none
  | (k, v) :: rest => if k = key then some v else cache_find key rest

/-- `player.score_cache[key] = score`: update in place when present,
append otherwise. -/
def cache_insert (key : List Int) (v : Score) :
    List (List Int × Score) → List (List Int × Score)
  | [] => [(key, v)]
  | (k, w) :: rest =>
    if k = key then (k, v) :: rest else (k, w) :: cache_insert key v rest

/-- The `for key in keys: if key in player.score_cache: ...` probe
loop: value under the first key present in the cache. -/
def probe_keys (cache : List (List Int × Score)) : List (List Int) → Option Score
  | [] => none
  | key :: rest =>
    match cache_find key cache with
    | some v => some v
    | none => probe_keys cache rest

/-- The `for key in keys: player.score_cache[key] = score` store
loop. -/
def store_keys (keys : List (List Int)) (v : Score)
    (cache : List (List Int × Score)) : List (List Int × Score) :=
  keys.foldl (fun c key => cache_insert key v c) cache

/-- `CustomPlayer.MAX_CACHE_DEPTH`. -/
def MAX_CACHE_DEPTH : Nat := 4

/-- `CustomPlayer.MAX_CACHE_SIZE`. -/
def MAX_CACHE_SIZE : Nat := 40000

/-- The cache-related attributes reached through `player.…` in
`custom_cached_score`: the score cache and the hit/miss counters. -/
structure PlayerCacheState where
  score_cache : List (List Int × Score)
  cache_hits : Nat
  cache_misses : Nat
deriving DecidableEq, Repr

/-- `custom_cached_score(game, player)`: probe the four
`RECT_ROTATIONS` keys in order (first hit returns the cached value and
bumps the hit counter); on a miss compute `custom_score`, bump the miss
counter, and store the score under every key — but only when the cache
is below `MAX_CACHE_SIZE` entries and the state's move count is below
`MAX_CACHE_DEPTH`. -/
def custom_cached_score (b : Board) (p : Bool) (ps : PlayerCacheState) (salt : Rat) :
    Score × PlayerCacheState :=
  let keys := RECT_ROTATIONS.map (fun rotation => hash_key b rotation)
  match probe_keys ps.score_cache keys with
  | some v => (v, ⟨ps.score_cache, ps.cache_hits + 1, ps.cache_misses⟩)
  | none =>
    let score := custom_score b p salt
    if ps.score_cache.length < MAX_CACHE_SIZE ∧ b.move_count < MAX_CACHE_DEPTH then
      (score, ⟨store_keys keys score ps.score_cache, ps.cache_hits, ps.cache_misses + 1⟩)
    else
      (score, ⟨ps.score_cache, ps.cache_hits, ps.cache_misses + 1⟩)

theorem cache_insert_length_le (key : List Int) (v : Score) :
    ∀ c : List (List Int × Score), (cache_insert key v c).length ≤ c.length + 1 := by
  intro c
  induction c with
  | nil => simp [cache_insert]
  | cons kv rest ih =>
    obtain ⟨k, w⟩ := kv
    simp only [cache_insert]
    split
    · simp
    · simpa using Nat.succ_le_succ ih

theorem store_keys_length_le (v : Score) :
    ∀ (keys : List (List Int)) (c : List (List Int × Score)),
      (store_keys keys v c).length ≤ c.length + keys.length := by
  intro keys
  induction keys with
  | nil => intro c; simp [store_keys]
  | cons k rest ih =>
    intro c
    have : store_keys (k :: rest) v c = store_keys rest v (cache_insert k v c) := rfl
    rw [this]
    calc (store_keys rest v (cache_insert k v c)).length
        ≤ (cache_insert k v c).length + rest.length := ih _
      _ ≤ c.length + 1 + rest.length :=
          Nat.add_le_add_right (cache_insert_length_le k v c) _
      _ = c.length + (rest.length + 1) := by omega
      _ = c.length + (k :: rest).length := by simp

/-- C7 (amended): `custom_cached_score` writes new cache entries only
when the state's move count is below `MAX_CACHE_DEPTH` *and* the cache
length is below `MAX_CACHE_SIZE`; each call adds at most the four
rotation keys, so the entry count never exceeds
`MAX_CACHE_SIZE + 3` (40003) — not `MAX_CACHE_SIZE` itself, since the
size check precedes a batch of four insertions; cache reads (hits)
mutate nothing except the hit counter. -/
theorem custom_cached_score_cache_invariants (b : Board) (p : Bool)
    (ps : PlayerCacheState) (salt : Rat) :
    ((custom_cached_score b p ps salt).2.score_cache = ps.score_cache ∨
      (ps.score_cache.length < MAX_CACHE_SIZE ∧ b.move_count < MAX_CACHE_DEPTH)) ∧
      (custom_cached_score b p ps salt).2.score_cache.length ≤
        ps.score_cache.length + 4 ∧
      (ps.score_cache.length ≤ MAX_CACHE_SIZE + 3 →
        (custom_cached_score b p ps salt).2.score_cache.length ≤ MAX_CACHE_SIZE + 3) ∧
      (∀ v, probe_keys ps.score_cache
          (RECT_ROTATIONS.map (fun rotation => hash_key b rotation)) = some v →
        custom_cached_score b p ps salt =
          (v, ⟨ps.score_cache, ps.cache_hits + 1, ps.cache_misses⟩)) := by
  cases hpro : probe_keys ps.score_cache
      (RECT_ROTATIONS.map (fun rotation => hash_key b rotation)) with
  | some v =>
    have hr : custom_cached_score b p ps salt =
        (v, ⟨ps.score_cache, ps.cache_hits + 1, ps.cache_misses⟩) := by
      simp only [custom_cached_score, hpro]
    refine ⟨Or.inl (by rw [hr]), by rw [hr]; exact Nat.le_add_right _ _,
      fun h => by rw [hr]; exact h, fun v' hv' => ?_⟩
    obtain rfl : v = v' := by simpa using hv'
    exact hr
  | none =>
    have h4 : (store_keys (RECT_ROTATIONS.map (fun rotation => hash_key b rotation))
        (custom_score b p salt) ps.score_cache).length ≤ ps.score_cache.length + 4 := by
      have := store_keys_length_le (custom_score b p salt)
        (RECT_ROTATIONS.map (fun rotation => hash_key b rotation)) ps.score_cache
      simpa [RECT_ROTATIONS] using this
    by_cases hc : ps.score_cache.length < MAX_CACHE_SIZE ∧ b.move_count < MAX_CACHE_DEPTH
    · have hr : custom_cached_score b p ps salt =
          (custom_score b p salt,
            ⟨store_keys (RECT_ROTATIONS.map (fun rotation => hash_key b rotation))
                (custom_score b p salt) ps.score_cache,
              ps.cache_hits, ps.cache_misses + 1⟩) := by
        simp only [custom_cached_score, hpro]
        rw [if_pos hc]
      refine ⟨Or.inr hc, by rw [hr]; exact h4, fun _ => ?_,
        fun v hv => Option.noConfusion hv⟩
      rw [hr]
      show (store_keys (RECT_ROTATIONS.map (fun rotation => hash_key b rotation))
        (custom_score b p salt) ps.score_cache).length ≤ MAX_CACHE_SIZE + 3
      have := hc.1
      omega
    · have hr : custom_cached_score b p ps salt =
          (custom_score b p salt,
            ⟨ps.score_cache, ps.cache_hits, ps.cache_misses + 1⟩) := by
        simp only [custom_cached_score, hpro]
        rw [if_neg hc]
      exact ⟨Or.inl (by rw [hr]), by rw [hr]; exact Nat.le_add_right _ _,
        fun h => by rw [hr]; exact h, fun v hv => Option.noConfusion hv⟩

/-- A 2x2 board (both positions set, move count 0) whose four rotation
keys are pairwise distinct. -/
def bC7 : Board := ⟨2, 2, [(0, 0)], some (0, 0), some (1, 1), true, 0⟩

theorem custom_cached_score_cache_invariants_witness :
    (⟨[], 0, 0⟩ : PlayerCacheState).score_cache.length ≤ MAX_CACHE_SIZE + 3 ∧
      (custom_cached_score bC7 true ⟨[], 0, 0⟩ 0).2.score_cache.length ≤
        MAX_CACHE_SIZE + 3 :=
  ⟨by decide,
    (custom_cached_score_cache_invariants bC7 true ⟨[], 0, 0⟩ 0).2.2.1 (by decide)⟩

theorem cache_find_eq_none (key : List Int) :
    ∀ c : List (List Int × Score), (∀ kv ∈ c, kv.1 ≠ key) → cache_find key c = none := by
  intro c
  induction c with
  | nil => intro _; rfl
  | cons kv rest ih =>
    intro h
    obtain ⟨k, v⟩ := kv
    simp only [cache_find]
    rw [if_neg (h (k, v) (List.mem_cons_self _ _))]
    exact ih fun kv' h' => h kv' (List.mem_cons_of_mem _ h')

theorem cache_insert_eq_append (key : List Int) (v : Score) :
    ∀ c : List (List Int × Score), key ∉ c.map Prod.fst →
      cache_insert key v c = c ++ [(key, v)] := by
  intro c
  induction c with
  | nil => intro _; rfl
  | cons kv rest ih =>
    intro h
    obtain ⟨k, w⟩ := kv
    simp only [List.map_cons, List.mem_cons] at h
    push_neg at h
    simp only [cache_insert]
    rw [if_neg (fun he => h.1 he.symm), ih h.2]
    rfl

theorem store_keys_length_of_fresh (v : Score) :
    ∀ (keys : List (List Int)) (c : List (List Int × Score)),
      keys.Nodup → (∀ k ∈ keys, k ∉ c.map Prod.fst) →
      (store_keys keys v c).length = c.length + keys.length := by
  intro keys
  induction keys with
  | nil => intro c _ _; simp [store_keys]
  | cons k rest ih =>
    intro c hnd hfresh
    have hstep : store_keys (k :: rest) v c = store_keys rest v (cache_insert k v c) := rfl
    rw [hstep, cache_insert_eq_append k v c (hfresh k (List.mem_cons_self _ _))]
    rw [ih (c ++ [(k, v)]) hnd.of_cons ?_]
    · simp only [List.length_append, List.length_cons, List.length_nil]
      omega
    · intro k' hk'
      simp only [List.map_append, List.mem_append, List.map_cons, List.map_nil,
        List.mem_singleton]
      push_neg
      refine ⟨hfresh k' (List.mem_cons_of_mem _ hk'), ?_⟩
      have := List.nodup_cons.mp hnd
      intro he
      exact this.1 (he ▸ hk')


theorem probe_keys_eq_none :
    ∀ (keys : List (List Int)) (c : List (List Int × Score)),
      (∀ k ∈ keys, cache_find k c = none) → probe_keys c keys = none := by
  intro keys
  induction keys with
  | nil => intro c _; rfl
  | cons k rest ih =>
    intro c h
    simp only [probe_keys, h k (List.mem_cons_self _ _)]
    exact ih c fun k' h' => h k' (List.mem_cons_of_mem _ h')

/-- A well-formed cache holding 39999 distinct single-coordinate keys,
one below `MAX_CACHE_SIZE`. -/
def bigCache : List (List Int × Score) :=
  (List.range 39999).map (fun i : Nat => ([(i : Int)], Score.val 0))

/-- The agent cache state holding `bigCache`. -/
def psBig : PlayerCacheState := ⟨bigCache, 0, 0⟩

theorem custom_cached_score_miss (b : Board) (p : Bool) (ps : PlayerCacheState)
    (salt : Rat)
    (hpro : probe_keys ps.score_cache
      (RECT_ROTATIONS.map fun rotation => hash_key b rotation) = none)
    (hc : ps.score_cache.length < MAX_CACHE_SIZE ∧ b.move_count < MAX_CACHE_DEPTH) :
    custom_cached_score b p ps salt =
      (custom_score b p salt,
        ⟨store_keys (RECT_ROTATIONS.map fun rotation => hash_key b rotation)
            (custom_score b p salt) ps.score_cache,
          ps.cache_hits, ps.cache_misses + 1⟩) := by
  simp only [custom_cached_score, hpro]
  rw [if_pos hc]

/-- C7 counterexample: with 39999 cached entries (strictly below
`MAX_CACHE_SIZE = 40000`) a single `custom_cached_score` miss on `bC7`
stores all four rotation keys after one size check, leaving 40003
entries — the cache size exceeds `MAX_CACHE_SIZE`. -/
theorem cache_size_exceeds_bound :
    psBig.score_cache.length < MAX_CACHE_SIZE ∧
      MAX_CACHE_SIZE < (custom_cached_score bC7 true psBig 0).2.score_cache.length := by
  have hlen : bigCache.length = 39999 := by
    rw [bigCache, List.length_map, List.length_range]
  have hkeys : (RECT_ROTATIONS.map fun rotation => hash_key bC7 rotation) =
      [[0, 0, 1, 1, 0, 0], [1, 1, 0, 0, 0, 0], [1, 0, 0, 1, 0, 0], [0, 1, 1, 0, 0, 0]] := by
    decide
  have hfst : ∀ x ∈ bigCache.map Prod.fst, x.length = 1 := by
    intro x hx
    simp only [bigCache, List.map_map, List.mem_map, List.mem_range] at hx
    obtain ⟨i, _, rfl⟩ := hx
    rfl
  have hnone : ∀ key : List Int, key.length = 6 → cache_find key bigCache = none := by
    intro key hk
    apply cache_find_eq_none
    intro kv hkv heq
    have h1 : kv.1 ∈ bigCache.map Prod.fst := List.mem_map_of_mem _ hkv
    have := hfst kv.1 h1
    rw [heq, hk] at this
    omega
  have hsc : psBig.score_cache = bigCache := by simp only [psBig]
  have hhits : psBig.cache_hits = 0 := by simp only [psBig]
  have hmiss : psBig.cache_misses = 0 := by simp only [psBig]
  have hpro : probe_keys bigCache
      (RECT_ROTATIONS.map fun rotation => hash_key bC7 rotation) = none := by
    rw [hkeys]
    refine probe_keys_eq_none _ bigCache ?_
    intro k hk
    apply hnone
    simp only [List.mem_cons, List.not_mem_nil, or_false] at hk
    rcases hk with h | h | h | h <;> rw [h] <;> rfl
  have hfresh : ∀ k ∈ (RECT_ROTATIONS.map fun rotation => hash_key bC7 rotation),
      k ∉ bigCache.map Prod.fst := by
    rw [hkeys]
    intro k hk hmem
    have := hfst k hmem
    have h6 : k.length = 6 := by
      simp only [List.mem_cons, List.not_mem_nil, or_false] at hk
      rcases hk with h | h | h | h <;> rw [h] <;> rfl
    rw [h6] at this
    omega
  have hnd : (RECT_ROTATIONS.map fun rotation => hash_key bC7 rotation).Nodup := by
    rw [hkeys]; decide
  have hstore := store_keys_length_of_fresh (custom_score bC7 true 0)
    (RECT_ROTATIONS.map fun rotation => hash_key bC7 rotation) bigCache hnd hfresh
  have hA : psBig.score_cache.length < MAX_CACHE_SIZE := by rw [hsc, hlen]; decide
  have hB : bC7.move_count < MAX_CACHE_DEPTH := by decide
  have hpro' : probe_keys psBig.score_cache
      (RECT_ROTATIONS.map fun rotation => hash_key bC7 rotation) = none := by
    rw [hsc]; exact hpro
  have hr := custom_cached_score_miss bC7 true psBig 0 hpro' ⟨hA, hB⟩
  refine ⟨hA, ?_⟩
  rw [hr]
  dsimp only
  rw [hsc, hstore, hlen, hkeys]
  decide

theorem custom_cached_score_hit (b : Board) (p : Bool) (ps : PlayerCacheState)
    (salt : Rat) (v : Score)
    (hpro : probe_keys ps.score_cache
      (RECT_ROTATIONS.map fun rotation => hash_key b rotation) = some v) :
    custom_cached_score b p ps salt =
      (v, ⟨ps.score_cache, ps.cache_hits + 1, ps.cache_misses⟩) := by
  simp only [custom_cached_score, hpro]

/-- A 3x1 board: players on `(0,0)` and `(1,0)`, occupied cells
`{(0,0), (1,0)}`, two moves played. -/
def sC5a : Board := ⟨3, 1, [(0, 0), (1, 0)], some (0, 0), some (1, 0), true, 2⟩

/-- The image of `sC5a` under the SOUTH (180 degree) transform, a valid
symmetry of every rectangular board: players on `(2,0)` and `(1,0)`,
occupied cells `{(2,0), (1,0)}`. -/
def sC5b : Board := ⟨3, 1, [(2, 0), (1, 0)], some (2, 0), some (1, 0), true, 2⟩

/-- The cache state after scoring `sC5a` from an empty cache. -/
def psAfterA : PlayerCacheState := (custom_cached_score sC5a true ⟨[], 0, 0⟩ 0).2

/-- C5, at the failing input: `sC5b` is the SOUTH image of `sC5a`, yet
after `custom_cached_score` has scored and cached `sC5a`, evaluating
`sC5b` is a full cache miss — the hit counter stays 0 and the miss
counter reaches 2 — because `hash_key` rotates the scan coordinates
*before* testing occupancy, so every key serializes the state's own
occupied set (merely reordered) instead of the transformed one, and the
keys of symmetry-related states never coincide. -/
theorem symmetry_cache_misses_on_transformed_board :
    (sC5b.p1 = some (rotate_coord sC5a 0 0 SOUTH) ∧
        sC5b.p2 = some (rotate_coord sC5a 1 0 SOUTH) ∧
        sC5b.occupied = sC5a.occupied.map (fun c => rotate_coord sC5a c.1 c.2 SOUTH) ∧
        sC5b.width = sC5a.width ∧ sC5b.height = sC5a.height) ∧
      psAfterA.cache_hits = 0 ∧
      psAfterA.cache_misses = 1 ∧
      (custom_cached_score sC5b true psAfterA 0).2.cache_hits = 0 ∧
      (custom_cached_score sC5b true psAfterA 0).2.cache_misses = 2 := by
  have hs1 : custom_score sC5a true 0 = Score.val 0 := by
    simp +decide [custom_score, find_accessible, floodLoop, floodGen, floodDirs,
      get_player_location, move_is_legal, active_player, sC5a, directions,
      MIN_VAL, MAX_VAL]
  have hs2 : custom_score sC5b true 0 = Score.val 0 := by
    simp +decide [custom_score, find_accessible, floodLoop, floodGen, floodDirs,
      get_player_location, move_is_legal, active_player, sC5b, directions,
      MIN_VAL, MAX_VAL]
  have hA1 : psAfterA =
      ⟨[([0, 0, 1, 0, 0, 0, 1, 0], Score.val 0), ([2, 0, 1, 0, 1, 0, 0, 0], Score.val 0)],
        0, 1⟩ := by
    show (custom_cached_score sC5a true ⟨[], 0, 0⟩ 0).2 = _
    rw [custom_cached_score_miss sC5a true ⟨[], 0, 0⟩ 0 (by decide) (by decide), hs1]
    decide
  refine ⟨by decide, by rw [hA1], by rw [hA1], ?_, ?_⟩ <;>
    · rw [hA1, custom_cached_score_miss sC5b true
        ⟨[([0, 0, 1, 0, 0, 0, 1, 0], Score.val 0), ([2, 0, 1, 0, 1, 0, 0, 0], Score.val 0)],
          0, 1⟩ 0 (by decide) (by decide)]
      try decide

/-!
## Cache sharing between agent instances (claim C9)

`CustomPlayer` declares `score_cache = {}` as a *class* attribute, so
every instance's `player.score_cache[key] = …` item-assignment mutates
the one dict shared by all instances, while `player.cache_hits += 1`
creates a per-instance attribute shadowing the class default of 0.  The
world below models two `CustomPlayer` instances under exactly these
Python semantics.
-/

/-- The observable state of two `CustomPlayer` instances: one shared
class-level `score_cache` and per-instance hit/miss counters. -/
structure TwoAgents where
  score_cache : List (List Int × Score)
  hits1 : Nat
  misses1 : Nat
  hits2 : Nat
  misses2 : Nat
deriving DecidableEq, Repr

/-- `custom_cached_score` invoked through instance 1 or instance 2:
the dict lookups and item-assignments reach the shared class-level
dict; the `+=` counter updates create and update the calling instance's
own attributes. -/
def agent_call (isFirst : Bool) (b : Board) (p : Bool) (w : TwoAgents) (salt : Rat) :
    Score × TwoAgents :=
  if isFirst then
    let r := custom_cached_score b p ⟨w.score_cache, w.hits1, w.misses1⟩ salt
    (r.1, ⟨r.2.score_cache, r.2.cache_hits, r.2.cache_misses, w.hits2, w.misses2⟩)
  else
    let r := custom_cached_score b p ⟨w.score_cache, w.hits2, w.misses2⟩ salt
    (r.1, ⟨r.2.score_cache, w.hits1, w.misses1, r.2.cache_hits, r.2.cache_misses⟩)

/-- A 3x1 board evaluated by both agent instances. -/
def bShare : Board := ⟨3, 1, [(0, 0), (1, 0)], some (0, 0), some (1, 0), true, 2⟩

/-- Two freshly constructed agent instances: empty shared cache, zero
counters. -/
def wFresh : TwoAgents := ⟨[], 0, 0, 0, 0⟩

/-- C9, at the failing input: after instance 1 scores `bShare` (a miss
that writes the shared class-level dict), instance 2's evaluation of
the same state is a cache *hit* — its hit counter becomes 1, its miss
counter stays 0, and it returns the score instance 1 stored — so one
instance's cache writes are observable through another instance's
lookups, contradicting exclusive per-instance ownership. -/
theorem class_cache_shared_between_instances :
    (agent_call true bShare true wFresh 0).2.misses1 = 1 ∧
      (agent_call true bShare true wFresh 0).2.hits2 = 0 ∧
      (agent_call false bShare true (agent_call true bShare true wFresh 0).2 0).2.hits2 = 1 ∧
      (agent_call false bShare true (agent_call true bShare true wFresh 0).2 0).2.misses2 = 0 ∧
      (agent_call false bShare true (agent_call true bShare true wFresh 0).2 0).1 =
        (agent_call true bShare true wFresh 0).1 := by
  have hsS : custom_score bShare true 0 = Score.val 0 := by
    simp +decide [custom_score, find_accessible, floodLoop, floodGen, floodDirs,
      get_player_location, move_is_legal, active_player, bShare, directions,
      MIN_VAL, MAX_VAL]
  have hw1 : agent_call true bShare true wFresh 0 =
      (Score.val 0,
        ⟨[([0, 0, 1, 0, 0, 0, 1, 0], Score.val 0), ([2, 0, 1, 0, 1, 0, 0, 0], Score.val 0)],
          0, 1, 0, 0⟩) := by
    simp only [agent_call, wFresh, if_pos]
    rw [custom_cached_score_miss bShare true ⟨[], 0, 0⟩ 0 (by decide) (by decide), hsS]
    decide
  have hw2 : agent_call false bShare true
      (⟨[([0, 0, 1, 0, 0, 0, 1, 0], Score.val 0), ([2, 0, 1, 0, 1, 0, 0, 0], Score.val 0)],
        0, 1, 0, 0⟩ : TwoAgents) 0 =
      (Score.val 0,
        ⟨[([0, 0, 1, 0, 0, 0, 1, 0], Score.val 0), ([2, 0, 1, 0, 1, 0, 0, 0], Score.val 0)],
          0, 1, 1, 0⟩) := by
    simp only [agent_call]
    rw [custom_cached_score_hit bShare true
      ⟨[([0, 0, 1, 0, 0, 0, 1, 0], Score.val 0), ([2, 0, 1, 0, 1, 0, 0, 0], Score.val 0)],
        0, 0⟩ 0 (Score.val 0) (by decide)]
    decide
  rw [hw1, hw2]
  exact ⟨rfl, rfl, rfl, rfl, rfl⟩
